import Mathlib

/- A verification development for the KaStack resume-processing service.
   Python strings are modelled as lists of characters (ASCII case mapping);
   every service function is translated from `services/resume_processor.py`
   and `services/qa_service.py`. -/

namespace KaStack

/- Python `str.strip()` whitespace set (ASCII part): space, tab, newline,
   carriage return, vertical tab, form feed. -/
def isPySpace (c : Char) : Bool :=
  c == ' ' || c == '\t' || c == '\n' || c == '\r' || c == Char.ofNat 11 || c == Char.ofNat 12

/- Python `str.strip()`. -/
def strip (l : List Char) : List Char :=
  ((l.dropWhile isPySpace).reverse.dropWhile isPySpace).reverse

/- Python `str.lower()` (ASCII). -/
def pyLower (l : List Char) : List Char := l.map Char.toLower

/- Python `str.split(sep)` for a one-character separator: keeps empty parts,
   `"".split(c) = [""]`. -/
def splitOnChar (sep : Char) : List Char → List (List Char)
  | [] => [[]]
  | c :: rest =>
    match splitOnChar sep rest with
    | [] => [[]]
    | h :: t => if c = sep then [] :: h :: t else (c :: h) :: t

/- Boolean prefix test on character lists. -/
def isPrefixList : List Char → List Char → Bool
  | [], _ => true
  | _ :: _, [] => false
  | a :: as, b :: bs => if a = b then isPrefixList as bs else false

/- Python `pat in s` (substring containment). -/
def isSubstr (pat : List Char) : List Char → Bool
  | [] => isPrefixList pat []
  | c :: rest => isPrefixList pat (c :: rest) || isSubstr pat rest

/- Python `s.find(pat)` restricted to the found case (`none` when absent). -/
def findSub (pat : List Char) : List Char → Option Nat
  | [] => if isPrefixList pat [] then some 0 else none
  | c :: rest =>
    if isPrefixList pat (c :: rest) then some 0
    else (findSub pat rest).map (· + 1)

/- Python `s.replace(pat, "", 1)`: remove the first occurrence of `pat`. -/
def replaceFirst (pat : List Char) : List Char → List Char
  | [] => []
  | c :: rest =>
    if isPrefixList pat (c :: rest) then (c :: rest).drop pat.length
    else c :: replaceFirst pat rest

/- Python `s.split(pat)[0]`: the text up to the first occurrence of `pat`. -/
def upToFirst (pat l : List Char) : List Char :=
  match findSub pat l with
  | some i => l.take i
  | none => l

/- `any(keyword in l for keyword in kws)`. -/
def containsAny (l : List Char) (kws : List (List Char)) : Bool :=
  kws.any (fun kw => isSubstr kw l)

/- Python `str.title()` (ASCII): a letter is uppercased when the previous
   character is not a letter, lowercased otherwise. -/
def pyTitleGo : Bool → List Char → List Char
  | _, [] => []
  | prevAlpha, c :: rest =>
    (if prevAlpha then c.toLower else c.toUpper) :: pyTitleGo c.isAlpha rest

def pyTitle (l : List Char) : List Char := pyTitleGo false l

def digitChar (n : Nat) : Char := Char.ofNat (48 + n)

/- `str(year)` for the four-digit years the education locator scans. -/
def yearChars (y : Nat) : List Char :=
  [digitChar (y / 1000 % 10), digitChar (y / 100 % 10), digitChar (y / 10 % 10), digitChar (y % 10)]

/- The data model of `process_resume`: the extracted-profile dictionary.
   Absent dictionary keys are `none`. -/
structure Education where
  degree : Option (List Char)
  year : Option Nat
deriving DecidableEq

structure Experience where
  title : Option (List Char)
deriving DecidableEq

structure CandidateProfile where
  education : Education
  experience : Experience
  skills : List (List Char)
  hobbies : List (List Char)
  certifications : List (List Char)
  projects : List (List Char)
  introduction : List Char
deriving DecidableEq

def educationKeywords : List (List Char) :=
  [String.toList "education", String.toList "degree", String.toList "university",
   String.toList "college", String.toList "bachelor", String.toList "master",
   String.toList "phd", String.toList "graduation"]

def experienceKeywords : List (List Char) :=
  [String.toList "experience", String.toList "work", String.toList "employment",
   String.toList "job", String.toList "position", String.toList "role"]

def certKeywords : List (List Char) :=
  [String.toList "certification", String.toList "certificate", String.toList "certified",
   String.toList "aws", String.toList "google", String.toList "microsoft"]

def projectKeywords : List (List Char) :=
  [String.toList "project", String.toList "projects", String.toList "portfolio"]

def hobbyKeywords : List (List Char) :=
  [String.toList "hobbies", String.toList "interests", String.toList "hobby",
   String.toList "interest"]

def introKeywords : List (List Char) :=
  [String.toList "summary", String.toList "introduction", String.toList "about",
   String.toList "profile", String.toList "objective"]

def common_skills : List (List Char) :=
  [String.toList "python", String.toList "java", String.toList "javascript",
   String.toList "sql", String.toList "mongodb", String.toList "postgresql",
   String.toList "fastapi", String.toList "flask", String.toList "django",
   String.toList "react", String.toList "node.js", String.toList "aws",
   String.toList "docker", String.toList "git", String.toList "linux",
   String.toList "data analysis", String.toList "machine learning",
   String.toList "deep learning", String.toList "tensorflow", String.toList "pytorch",
   String.toList "pandas", String.toList "numpy", String.toList "scikit-learn"]

def skillsKeywords : List (List Char) :=
  [String.toList "skills", String.toList "technical skills", String.toList "competencies"]

/- `for year in range(2000, 2030): if str(year) in line: ... break`. -/
def findYear (line : List Char) : Nat → Nat → Option Nat
  | _, 0 => none
  | y, k + 1 => if isSubstr (yearChars y) line then some y else findYear line (y + 1) k

/- First line whose lowering contains one of the keywords. -/
def firstKwLine (kws : List (List Char)) : List (List Char) → Option (List Char)
  | [] => none
  | line :: rest =>
    if containsAny (pyLower line) kws then some line else firstKwLine kws rest

/- `ResumeProcessor._extract_education`. -/
def extract_education (lines : List (List Char)) : Education :=
  match firstKwLine educationKeywords lines with
  | none => ⟨none, none⟩
  | some line => ⟨some (strip line), findYear line 2000 30⟩

/- The loop body of `ResumeProcessor._extract_experience`: on the first
   keyword-matching line, the title is the stripped following line when
   one exists (`if i + 1 < len(lines)`), and stays absent otherwise. -/
def expTitle : List (List Char) → Option (List Char)
  | [] => none
  | line :: rest =>
    if containsAny (pyLower line) experienceKeywords then rest.head?.map strip
    else expTitle rest

def extract_experience (lines : List (List Char)) : Experience := ⟨expTitle lines⟩

/- The `skills_text` window of `ResumeProcessor._extract_skills`:
   500 characters of the original text from the first skills keyword,
   lowered; empty when no keyword occurs. -/
def skillsWindowGo (text tl : List Char) : List (List Char) → List Char
  | [] => []
  | kw :: rest =>
    if isSubstr kw tl then
      match findSub kw tl with
      | some idx => pyLower ((text.drop idx).take 500)
      | none => []
    else skillsWindowGo text tl rest

def skillsWindow (text : List Char) : List Char :=
  skillsWindowGo text (pyLower text) skillsKeywords

/- `ResumeProcessor._extract_skills`; `list(set(...))` is modelled by
   `dedup` (the Python iteration order of a `set` is unspecified). -/
def extract_skills (text : List Char) : List (List Char) :=
  ((common_skills.filter
      (fun s => isSubstr s (pyLower text) || isSubstr s (skillsWindow text))).map pyTitle).dedup

/- `ResumeProcessor._extract_certifications` (no break: all matching lines). -/
def extract_certifications (lines : List (List Char)) : List (List Char) :=
  (lines.filterMap (fun l =>
    if containsAny (pyLower l) certKeywords then
      if (strip l).length > 5 then some (strip l) else none
    else none)).take 5

/- The inner loop of `_extract_projects`: collect stripped lines longer than
   10 characters, stopping as soon as five are collected. -/
def projQual (l : List Char) : Bool := decide (strip l ≠ [] ∧ 10 < (strip l).length)

def projCollect : List (List Char) → List (List Char) → List (List Char)
  | acc, [] => acc
  | acc, l :: rest =>
    let acc' := if projQual l then acc ++ [strip l] else acc
    if 5 ≤ acc'.length then acc' else projCollect acc' rest

/- `ResumeProcessor._extract_projects`: `range(i+1, min(i+10, len(lines)))`
   covers at most the NINE lines after the first matching line. -/
def projScan : List (List Char) → List (List Char)
  | [] => []
  | line :: rest =>
    if containsAny (pyLower line) projectKeywords then projCollect [] (rest.take 9)
    else projScan rest

def extract_projects (lines : List (List Char)) : List (List Char) :=
  (projScan lines).take 5

/- `ResumeProcessor._extract_hobbies`: on the first keyword line, split on
   the first colon and take the first five comma-separated stripped items. -/
def extract_hobbies : List (List Char) → List (List Char)
  | [] => []
  | line :: rest =>
    if containsAny (pyLower line) hobbyKeywords then
      match splitOnChar ':' line with
      | _ :: p1 :: _ => ((splitOnChar ',' p1).map strip).take 5
      | _ => []
    else extract_hobbies rest

/- The keyword loop of `_extract_introduction`. -/
def introFromKw (text tl : List Char) : List (List Char) → Option (List Char)
  | [] => none
  | kw :: rest =>
    if isSubstr kw tl then
      let idx := (findSub kw tl).getD 0
      let intro0 := strip ((text.drop idx).take 300)
      let intro1 := introKeywords.foldl (fun s k => replaceFirst k s) intro0
      let intro2 := strip intro1
      let intro3 := match intro2 with
        | c :: r => if c = ':' then strip r else intro2
        | [] => intro2
      some (intro3.take 500)
    else introFromKw text tl rest

/- `ResumeProcessor._extract_introduction`. -/
def extract_introduction (text : List Char) : List Char :=
  match introFromKw text (pyLower text) introKeywords with
  | some r => r
  | none =>
    let fp :=
      if isSubstr (String.toList "\n\n") text then upToFirst (String.toList "\n\n") text
      else text.take 300
    (strip fp).take 500

/- `ResumeProcessor._extract_with_rules`. -/
def rules_extract (text : List Char) : CandidateProfile :=
  let lines := splitOnChar '\n' text
  { education := extract_education lines
    experience := extract_experience lines
    skills := extract_skills text
    hobbies := extract_hobbies lines
    certifications := extract_certifications lines
    projects := extract_projects lines
    introduction := extract_introduction text }

/- `ResumeProcessor._extract_with_hf_api`: always returns `None`. -/
def extract_with_hf_api (_text : List Char) : Option CandidateProfile := none

/- `ResumeProcessor.process_resume`: the hosted-inference path yields no
   data, so both settings of the API key reach the rule-based extractor. -/
def process_resume (hasKey : Bool) (text : List Char) : CandidateProfile :=
  if hasKey then
    match extract_with_hf_api text with
    | some d => d
    | none => rules_extract text
  else rules_extract text

/- The `except` branch of `process_resume`: the minimal profile with the
   introduction truncated to 500 characters and every other field at its
   empty default. -/
def process_resume_onError (text : List Char) : CandidateProfile :=
  { education := ⟨none, none⟩
    experience := ⟨none⟩
    skills := []
    hobbies := []
    certifications := []
    projects := []
    introduction := text.take 500 }

/- The QA service (`services/qa_service.py`). -/

def apos : Char := Char.ofNat 39

def gradMsgPre : List Char := String.toList "The candidate finished graduation in "

def gradNone : List Char :=
  String.toList "The graduation date information is not explicitly available in the candidate"
    ++ (apos :: String.toList "s data.")

def skillsMsgPre : List Char := String.toList "The candidate has the following skills: "

def skillsGeneric : List Char :=
  String.toList "Please check the skills section in the candidate"
    ++ (apos :: String.toList "s profile for detailed information.")

def expMsgPre : List Char :=
  String.toList "Based on the candidate" ++ (apos :: String.toList "s experience: ")

def expGeneric : List Char :=
  String.toList "Please check the experience section in the candidate"
    ++ (apos :: String.toList "s profile for work history details.")

def finalGeneric : List Char :=
  String.toList "I couldn" ++ (apos :: String.toList "t generate a proper answer. Please check the candidate")
    ++ (apos :: String.toList "s profile or try rephrasing your question.")

def couldnotMsg : List Char :=
  String.toList "I couldn"
    ++ (apos :: String.toList "t generate a proper answer. Please try rephrasing your question.")

def timeoutMsg : List Char := String.toList "Request timed out. Please try again."

def loadingMsg : List Char :=
  String.toList "The AI model is currently loading. Please try again in a few seconds."

/- Regex word characters for the `\b` boundary (ASCII). -/
def isWordChar (c : Char) : Bool := c.isAlphanum || c == '_'

def boundaryAfter : List Char → Bool
  | [] => true
  | r :: _ => !(isWordChar r)

/- `re.findall(r'\b(19|20)\d{2}\b', prompt)`: the left-to-right,
   non-overlapping matches; each returned element is the text of the
   CAPTURED GROUP `(19|20)`, i.e. only the first two digits. -/
def findYears (prevIsWord : Bool) : List Char → List (List Char)
  | c1 :: c2 :: c3 :: c4 :: rest =>
    if !prevIsWord && ((c1 == '1' && c2 == '9') || (c1 == '2' && c2 == '0'))
        && c3.isDigit && c4.isDigit && boundaryAfter rest then
      [c1, c2] :: findYears true rest
    else findYears (isWordChar c1) (c2 :: c3 :: c4 :: rest)
  | _ => []

def skillsColon : List Char := String.toList "skills:"

def expColon : List Char := String.toList "experience:"

/- Backtracking of `\s*([^\n]+)` after a `skills:` occurrence: with `m` the
   maximal whitespace run, find the largest `k ≤ m` whose character exists
   and is not a newline; the group is the rest of that line. -/
def tryK (r : List Char) : Nat → Option (List Char)
  | 0 =>
    match r.head? with
    | some c => if c = '\n' then none else some (r.takeWhile (fun x => ¬ x = '\n'))
    | none => none
  | k + 1 =>
    match (r.drop (k + 1)).head? with
    | some c =>
      if c = '\n' then tryK r k
      else some ((r.drop (k + 1)).takeWhile (fun x => ¬ x = '\n'))
    | none => tryK r k

def skillsGroupAt (r : List Char) : Option (List Char) :=
  tryK r (r.takeWhile isPySpace).length

/- `re.search(r'skills:\s*([^\n]+)', prompt_lower)`: the group of the
   leftmost position where the whole pattern matches. -/
def searchSkills : List Char → Option (List Char)
  | [] => none
  | c :: rest =>
    if isPrefixList skillsColon (c :: rest) then
      match skillsGroupAt ((c :: rest).drop 7) with
      | some g => some g
      | none => searchSkills rest
    else searchSkills rest

def lbrace : Char := Char.ofNat 123

def rbrace : Char := Char.ofNat 125

/- The group matcher of `\s*({[^}]+})`: skip the whitespace run, require an
   opening brace, at least one non-closing-brace character, and a closing
   brace. -/
def expGroupAt (r : List Char) : Option (List Char) :=
  match r.dropWhile isPySpace with
  | c :: rest =>
    if c = lbrace then
      let body := rest.takeWhile (fun x => ¬ x = rbrace)
      if body ≠ [] ∧ (rest.drop body.length).head? = some rbrace then
        some (lbrace :: (body ++ [rbrace]))
      else none
    else none
  | [] => none

/- `re.search(r'experience:\s*({[^}]+})', prompt_lower)`. -/
def searchExpBrace : List Char → Option (List Char)
  | [] => none
  | c :: rest =>
    if isPrefixList expColon (c :: rest) then
      match expGroupAt ((c :: rest).drop 11) with
      | some g => some g
      | none => searchExpBrace rest
    else searchExpBrace rest

/- `QAService._fallback_answer`. -/
def fallback_answer (prompt : List Char) : List Char :=
  let pl := pyLower prompt
  if isSubstr (String.toList "graduation") pl || isSubstr (String.toList "graduate") pl then
    if isSubstr (String.toList "education") pl then
      match (findYears false prompt).getLast? with
      | some y => gradMsgPre ++ y ++ String.toList "."
      | none => gradNone
    else gradNone
  else if isSubstr (String.toList "skill") pl then
    if isSubstr skillsColon pl then
      match searchSkills pl with
      | some g => skillsMsgPre ++ g
      | none => skillsGeneric
    else skillsGeneric
  else if isSubstr (String.toList "experience") pl || isSubstr (String.toList "work") pl then
    if isSubstr expColon pl then
      match searchExpBrace pl with
      | some g => expMsgPre ++ g
      | none => expGeneric
    else expGeneric
  else finalGeneric

/- The shape of the parsed JSON body in the 200 branch of `_call_hf_api`. -/
inductive HFBody where
  | genText (s : List Char) : HFBody
  | textField (s : List Char) : HFBody
  | listOther (s : List Char) : HFBody
  | strResult (s : List Char) : HFBody
  | other : HFBody
deriving DecidableEq

/- The externally observable outcome of the HTTP POST in `_call_hf_api`:
   a response with a status code and body, a `requests` timeout, or any
   other exception. -/
inductive HFOutcome where
  | response (status : Nat) (body : HFBody) : HFOutcome
  | timeoutExc : HFOutcome
  | otherExc : HFOutcome
deriving DecidableEq

/- `QAService._call_hf_api`. -/
def call_hf_api (o : HFOutcome) (prompt : List Char) : List Char :=
  match o with
  | .response status body =>
    if status = 200 then
      match body with
      | .genText s => strip s
      | .textField s => strip s
      | .strResult s => strip s
      | .listOther s => strip s
      | .other => couldnotMsg
    else if status = 503 then loadingMsg
    else fallback_answer prompt
  | .timeoutExc => timeoutMsg
  | .otherExc => fallback_answer prompt

/- Helper lemmas. -/

theorem process_resume_eq_rules (hasKey : Bool) (text : List Char) :
    process_resume hasKey text = rules_extract text := by
  cases hasKey <;> rfl

theorem findYear_range (line : List Char) :
    ∀ k n y, findYear line n k = some y → n ≤ y ∧ y < n + k := by
  intro k
  induction k with
  | zero => intro n y h; simp [findYear] at h
  | succ k ih =>
    intro n y h
    rw [findYear] at h
    split at h
    · cases h; omega
    · have := ih (n + 1) y h; omega

theorem findYear_eq_some (line : List Char) :
    ∀ k n y, n ≤ y → y < n + k → isSubstr (yearChars y) line = true →
      (∀ z, z < y → n ≤ z → isSubstr (yearChars z) line = false) →
      findYear line n k = some y := by
  intro k
  induction k with
  | zero => intro n y h1 h2 _ _; omega
  | succ k ih =>
    intro n y h1 h2 hocc hmin
    rw [findYear]
    rcases Nat.eq_or_lt_of_le h1 with rfl | hlt
    · simp [hocc]
    · rw [if_neg (by simp [hmin n hlt (Nat.le_refl n)])]
      exact ih (n + 1) y hlt (by omega) hocc fun z hz _ => hmin z hz (by omega)

theorem extract_hobbies_length : ∀ lines, (extract_hobbies lines).length ≤ 5 := by
  intro lines
  induction lines with
  | nil => simp [extract_hobbies]
  | cons line rest ih =>
    rw [extract_hobbies]
    split
    · split
      · simp
      · simp
    · exact ih

theorem introFromKw_length (text tl : List Char) :
    ∀ kws r, introFromKw text tl kws = some r → r.length ≤ 500 := by
  intro kws
  induction kws with
  | nil => intro r h; simp [introFromKw] at h
  | cons kw rest ih =>
    intro r h
    rw [introFromKw] at h
    split at h
    · cases h; simp
    · exact ih r h

theorem extract_introduction_length (text : List Char) :
    (extract_introduction text).length ≤ 500 := by
  rw [extract_introduction]
  split
  · exact introFromKw_length _ _ _ _ (by assumption)
  · simp

theorem extract_education_year_range (lines : List (List Char)) :
    (extract_education lines).year.elim True (fun y => 2000 ≤ y ∧ y ≤ 2029) := by
  rw [extract_education]
  split
  · trivial
  · rcases h : findYear _ 2000 30 with _ | y
    · trivial
    · have := findYear_range _ 30 2000 y h
      simp only [Option.elim]
      omega

theorem introFromKw_none (text tl : List Char) :
    ∀ kws, (∀ kw ∈ kws, isSubstr kw tl = false) → introFromKw text tl kws = none := by
  intro kws
  induction kws with
  | nil => intro _; rfl
  | cons kw rest ih =>
    intro h
    rw [introFromKw, if_neg (by simp [h kw (by simp)])]
    exact ih fun k hk => h k (by simp [hk])

/-- C1: for every input text (and either setting of the API key) the profile
assembler is total and returns a `CandidateProfile` with all seven fields
present, certifications/projects/hobbies of length at most 5, an introduction
of length at most 500, and an education year (when present) in [2000, 2029];
the exception branch yields the minimal profile whose introduction is the
first 500 characters of the input, all other fields at their empty default. -/
theorem process_resume_total_bounds (hasKey : Bool) (text : List Char) :
    (process_resume hasKey text).certifications.length ≤ 5 ∧
    (process_resume hasKey text).projects.length ≤ 5 ∧
    (process_resume hasKey text).hobbies.length ≤ 5 ∧
    (process_resume hasKey text).introduction.length ≤ 500 ∧
    (process_resume hasKey text).education.year.elim True (fun y => 2000 ≤ y ∧ y ≤ 2029) ∧
    process_resume_onError text = ⟨⟨none, none⟩, ⟨none⟩, [], [], [], [], text.take 500⟩ := by
  rw [process_resume_eq_rules]
  refine ⟨?_, ?_, ?_, ?_, ?_, rfl⟩
  · simp [rules_extract, extract_certifications]
  · simp [rules_extract, extract_projects]
  · exact extract_hobbies_length _
  · exact extract_introduction_length _
  · exact extract_education_year_range _

/-- C3: whenever the first education-keyword line of the text is `line` and
`y` is a year in [2000, 2030) occurring as a substring of that line such that
no smaller year of that range occurs in it, the education locator returns the
trimmed line as degree and `y` as year (the ascending candidate scan takes
the smallest matching year). -/
theorem education_year_min (text line : List Char) (y : Nat)
    (hline : firstKwLine educationKeywords (splitOnChar '\n' text) = some line)
    (hy1 : 2000 ≤ y) (hy2 : y < 2030)
    (hocc : isSubstr (yearChars y) line = true)
    (hmin : ∀ d, d < y - 2000 → isSubstr (yearChars (2000 + d)) line = false) :
    extract_education (splitOnChar '\n' text) = ⟨some (strip line), some y⟩ := by
  have hmin' : ∀ z, z < y → 2000 ≤ z → isSubstr (yearChars z) line = false := by
    intro z h1 h2
    have := hmin (z - 2000) (by omega)
    rwa [show 2000 + (z - 2000) = z by omega] at this
  simp only [extract_education, hline]
  rw [findYear_eq_some line 30 2000 y hy1 (by omega) hocc hmin']

/-- Witness for C3 at the spec's example line: degree is the trimmed line and
the year is 2018. -/
theorem education_year_min_witness :
    extract_education (splitOnChar '\n' (String.toList "Bachelor of Science, 2018, Education")) =
      ⟨some (strip (String.toList "Bachelor of Science, 2018, Education")), some 2018⟩ :=
  education_year_min (String.toList "Bachelor of Science, 2018, Education")
    (String.toList "Bachelor of Science, 2018, Education") 2018
    (by decide) (by decide) (by decide) (by decide) (by decide)

/-- C5 counterexample: on the one-line text "experience" the matching line is
the last line, and the experience locator leaves `title` ABSENT (the `i + 1 <
len(lines)` guard skips the assignment); it does not set it to the empty
string as the claim states. -/
theorem experience_last_line_cex :
    (extract_experience (splitOnChar '\n' (String.toList "experience"))).title = none ∧
    (extract_experience (splitOnChar '\n' (String.toList "experience"))).title ≠ some [] := by
  decide

/-- C5 (amended): on the first line containing an experience keyword, `title`
is the trimmed immediately following line when that line exists (so the empty
string when it is blank), and stays absent when the matching line is the last
line. -/
theorem experience_title_first_match (pre : List (List Char)) (line : List Char)
    (post : List (List Char))
    (hpre : ∀ l ∈ pre, containsAny (pyLower l) experienceKeywords = false)
    (hline : containsAny (pyLower line) experienceKeywords = true) :
    (extract_experience (pre ++ line :: post)).title = post.head?.map strip := by
  induction pre with
  | nil => simp [extract_experience, expTitle, hline]
  | cons p pre ih =>
    have hp := hpre p (by simp)
    show expTitle (p :: (pre ++ line :: post)) = _
    rw [expTitle, if_neg (by simp [hp])]
    exact ih fun l hl => hpre l (by simp [hl])

/-- Witness for C5: the keyword line "Work Experience" is followed by an
indented title line, which is returned trimmed. -/
theorem experience_title_first_match_witness :
    (extract_experience ([String.toList "intro"] ++
        (String.toList "Work Experience") :: [String.toList "  Software Engineer  "])).title =
      [String.toList "  Software Engineer  "].head?.map strip :=
  experience_title_first_match [String.toList "intro"] (String.toList "Work Experience")
    [String.toList "  Software Engineer  "] (by decide) (by decide)

/- The inner project loop appends, to the accumulator, the first qualifying
stripped lines of the scanned window up to the five-element budget. -/
theorem projCollect_eq : ∀ (l acc : List (List Char)), acc.length < 5 →
    projCollect acc l = acc ++ ((l.filter projQual).map strip).take (5 - acc.length) := by
  intro l
  induction l with
  | nil => intro acc h; simp [projCollect]
  | cons x rest ih =>
    intro acc h
    rw [projCollect]
    by_cases hq : projQual x = true
    · have hf : (x :: rest).filter projQual = x :: rest.filter projQual :=
        List.filter_cons_of_pos hq
      simp only [hq, if_true, hf, List.map_cons]
      by_cases h5 : 5 ≤ (acc ++ [strip x]).length
      · rw [if_pos h5]
        have hlen : acc.length = 4 := by simp at h5; omega
        rw [show 5 - acc.length = 1 by omega]
        simp
      · rw [if_neg h5]
        have hlt : (acc ++ [strip x]).length < 5 := by omega
        rw [ih _ hlt]
        have h1 : (acc ++ [strip x]).length = acc.length + 1 := by simp
        rw [h1, show 5 - acc.length = (5 - (acc.length + 1)) + 1 by omega]
        simp [List.take_succ_cons]
    · have hf : (x :: rest).filter projQual = rest.filter projQual :=
        List.filter_cons_of_neg hq
      rw [if_neg hq, hf, if_neg (by omega)]
      exact ih acc h

/-- C6 counterexample: after the matching line "projects" come nine blank
lines and then a 12-character line; the claim's 10-line window would collect
that line, but the code's `range(i+1, min(i+10, len(lines)))` scans only the
NINE following lines, so nothing is collected. -/
theorem projects_window_cex :
    extract_projects
        (splitOnChar '\n' (String.toList "projects\n\n\n\n\n\n\n\n\n\nabcdefghijkl")) = [] ∧
    ((((splitOnChar '\n'
        (String.toList "projects\n\n\n\n\n\n\n\n\n\nabcdefghijkl")).drop 1).take 10).filter
          projQual).map strip ≠ [] := by
  decide

/-- C6 (amended): on the first line containing a project keyword, the locator
scans up to the next NINE lines (not ten), collecting in order every line
whose trimmed form is nonempty and longer than 10 characters, stopping at
five; the result is capped to the first five entries. -/
theorem projects_first_match (pre : List (List Char)) (line : List Char)
    (post : List (List Char))
    (hpre : ∀ l ∈ pre, containsAny (pyLower l) projectKeywords = false)
    (hline : containsAny (pyLower line) projectKeywords = true) :
    extract_projects (pre ++ line :: post) =
      (((post.take 9).filter projQual).map strip).take 5 := by
  have hscan : projScan (pre ++ line :: post) = projCollect [] (post.take 9) := by
    induction pre with
    | nil => simp [projScan, hline]
    | cons p pre ih =>
      have hp := hpre p (by simp)
      show projScan (p :: (pre ++ line :: post)) = _
      rw [projScan, if_neg (by simp [hp])]
      exact ih fun l hl => hpre l (by simp [hl])
  rw [extract_projects, hscan, projCollect_eq _ [] (by simp), List.nil_append]
  simp [List.take_take]

/-- Witness for C6: a single long line right after the keyword line is
collected (trimmed). -/
theorem projects_first_match_witness :
    extract_projects ([] ++ (String.toList "projects") ::
        [String.toList "Built a compiler in Rust"]) =
      ((([String.toList "Built a compiler in Rust"].take 9).filter projQual).map strip).take 5 :=
  projects_first_match [] (String.toList "projects")
    [String.toList "Built a compiler in Rust"] (by decide) (by decide)

/-- C7 counterexample: the text " abc" has no introduction keyword and no
blank-line break, yet the locator returns "abc", not the text's first 300
characters " abc" — the code strips the truncated text. -/
theorem introduction_fallback_cex :
    extract_introduction (String.toList " abc") ≠ (String.toList " abc").take 300 ∧
    extract_introduction (String.toList " abc") = String.toList "abc" := by
  decide

/-- C7 (amended): for text with no recognized introduction keyword and no
blank-line paragraph break, the introduction locator returns the STRIPPED
first 300 characters of the text (capped at 500, a no-op after the
300-character truncation). -/
theorem introduction_fallback_strip (text : List Char)
    (hkw : ∀ kw ∈ introKeywords, isSubstr kw (pyLower text) = false)
    (hnn : isSubstr (String.toList "\n\n") text = false) :
    extract_introduction text = (strip (text.take 300)).take 500 := by
  rw [extract_introduction, introFromKw_none text (pyLower text) introKeywords hkw]
  simp [show isSubstr ['\n', '\n'] text = false from hnn]

/-- Witness for C7 at the text " abc". -/
theorem introduction_fallback_strip_witness :
    extract_introduction (String.toList " abc") =
      (strip ((String.toList " abc").take 300)).take 500 :=
  introduction_fallback_strip (String.toList " abc") (by decide) (by decide)

/-- C10: the hobbies locator trims comma-separated items but keeps empty
ones: the line "Hobbies:" yields the one-element list [""], and
"Hobbies: reading,,chess" yields an empty string between "reading" and
"chess". -/
theorem hobbies_empty_items :
    extract_hobbies (splitOnChar '\n' (String.toList "Hobbies:")) = [[]] ∧
    extract_hobbies (splitOnChar '\n' (String.toList "Hobbies: reading,,chess")) =
      [String.toList "reading", [], String.toList "chess"] := by
  decide

/-- C2 counterexample: on a timeout and on the 503 model-loading signal the
QA call returns fixed messages, NOT the Fallback Answerer's output on the
prompt, contradicting the claim (which asserts the fallback output in those
cases too). -/
theorem hf_timeout_not_fallback :
    call_hf_api HFOutcome.timeoutExc (String.toList "hello") ≠
      fallback_answer (String.toList "hello") ∧
    call_hf_api (HFOutcome.response 503 HFBody.other) (String.toList "hello") ≠
      fallback_answer (String.toList "hello") := by
  decide

/-- C2 (amended): the QA call never raises and always produces an answer
string; on a timeout it returns the fixed timed-out message, on a 503
response the fixed model-loading message, and it returns the Fallback
Answerer's output exactly on non-timeout exceptions and on HTTP statuses
other than 200 and 503. -/
theorem call_hf_api_dispatch (p : List Char) :
    call_hf_api HFOutcome.timeoutExc p = timeoutMsg ∧
    call_hf_api HFOutcome.otherExc p = fallback_answer p ∧
    (∀ b, call_hf_api (HFOutcome.response 503 b) p = loadingMsg) ∧
    (∀ s b, s ≠ 200 → s ≠ 503 → call_hf_api (HFOutcome.response s b) p = fallback_answer p) := by
  refine ⟨rfl, rfl, fun b => rfl, fun s b h1 h2 => ?_⟩
  simp [call_hf_api, h1, h2]

/-- Witness for C2 at a concrete prompt and a 404 response. -/
theorem call_hf_api_dispatch_witness :
    call_hf_api HFOutcome.timeoutExc (String.toList "hi") = timeoutMsg ∧
    call_hf_api (HFOutcome.response 404 HFBody.other) (String.toList "hi") =
      fallback_answer (String.toList "hi") :=
  ⟨(call_hf_api_dispatch (String.toList "hi")).1,
   (call_hf_api_dispatch (String.toList "hi")).2.2.2 404 HFBody.other
     (by decide) (by decide)⟩

/-- C4: on the prompt "graduation education 2018" the fallback reports
"... in 20.", not "... in 2018.": `re.findall` with the group `(19|20)`
returns only the captured century prefix, so `years[-1]` is "20" even though
the four-digit token 2018 occurs in the prompt. The claim (report the last
four-digit year) describes the evident intent; the code is a slip. -/
theorem fallback_graduation_group_bug :
    fallback_answer (String.toList "graduation education 2018") =
      String.toList "The candidate finished graduation in 20." ∧
    isSubstr (String.toList "2018") (String.toList "graduation education 2018") = true := by
  decide

/-- C9: the skill matcher's output has no duplicates, every element is the
Title-cased form of a vocabulary token occurring (case-insensitively) in the
text or in the 500-character skills window, and the rule-based pipeline is
deterministic: two applications to the same text are equal. -/
theorem skills_pipeline_spec (text : List Char) :
    (extract_skills text).Nodup ∧
    (∀ s ∈ extract_skills text, ∃ v ∈ common_skills, s = pyTitle v ∧
      (isSubstr v (pyLower text) = true ∨ isSubstr v (skillsWindow text) = true)) ∧
    rules_extract text = rules_extract text := by
  refine ⟨List.nodup_dedup _, ?_, rfl⟩
  intro s hs
  rw [extract_skills, List.mem_dedup] at hs
  obtain ⟨v, hv, rfl⟩ := List.mem_map.mp hs
  obtain ⟨hv1, hv2⟩ := List.mem_filter.mp hv
  rcases (Bool.or_eq_true _ _).mp hv2 with h | h
  · exact ⟨v, hv1, rfl, Or.inl h⟩
  · exact ⟨v, hv1, rfl, Or.inr h⟩

/-- Witness for C9: "Python" in the extracted skills of "Skills: Python" is
the Title-cased form of an occurring vocabulary token. -/
theorem skills_pipeline_spec_witness :
    ∃ v ∈ common_skills, String.toList "Python" = pyTitle v ∧
      (isSubstr v (pyLower (String.toList "Skills: Python")) = true ∨
       isSubstr v (skillsWindow (String.toList "Skills: Python")) = true) :=
  (skills_pipeline_spec (String.toList "Skills: Python")).2.1
    (String.toList "Python") (by decide)

/- Prefix-test lemmas used to locate the first `skills:` occurrence. -/

theorem isPrefixList_length_le {p : List Char} :
    ∀ (x y : List Char), isPrefixList p (x ++ y) = true →
      p.length ≤ x.length → isPrefixList p x = true := by
  induction p with
  | nil => intro x y _ _; cases x <;> rfl
  | cons a as ih =>
    intro x y h hle
    cases x with
    | nil => simp at hle
    | cons b bs =>
      rw [List.cons_append] at h
      by_cases hab : a = b
      · subst hab
        rw [isPrefixList, if_pos rfl] at h ⊢
        exact ih bs y h (by simpa using hle)
      · rw [isPrefixList, if_neg hab] at h
        cases h

theorem isPrefixList_split {p : List Char} :
    ∀ {x : List Char} (y : List Char), isPrefixList p (x ++ y) = true →
      x.length < p.length →
      isPrefixList x p = true ∧ isPrefixList (p.drop x.length) y = true := by
  intro x
  induction x generalizing p with
  | nil => intro y h _; exact ⟨rfl, by simpa using h⟩
  | cons b bs ih =>
    intro y h hlt
    cases p with
    | nil => simp at hlt
    | cons a as =>
      rw [List.cons_append] at h
      by_cases hab : a = b
      · subst hab
        rw [isPrefixList, if_pos rfl] at h
        obtain ⟨h1, h2⟩ := ih y h (by simpa using hlt)
        exact ⟨by rw [isPrefixList, if_pos rfl]; exact h1, by simpa using h2⟩
      · rw [isPrefixList, if_neg hab] at h
        cases h

theorem isPrefixList_trans_len {u : List Char} :
    ∀ {v y : List Char}, isPrefixList u y = true → isPrefixList v y = true →
      u.length ≤ v.length → isPrefixList u v = true := by
  induction u with
  | nil => intro v _ _ _ _; cases v <;> rfl
  | cons a as ih =>
    intro v y hu hv hle
    cases v with
    | nil => simp at hle
    | cons b bs =>
      cases y with
      | nil => rw [isPrefixList] at hu; cases hu
      | cons c cs =>
        by_cases hac : a = c
        · subst hac
          rw [isPrefixList, if_pos rfl] at hu
          by_cases hbc : b = a
          · subst hbc
            rw [isPrefixList, if_pos rfl] at hv ⊢
            exact ih hu hv (by simpa using hle)
          · rw [isPrefixList, if_neg hbc] at hv
            cases hv
        · rw [isPrefixList, if_neg hac] at hu
          cases hu

theorem isPrefixList_eq_take {u : List Char} :
    ∀ {v : List Char}, isPrefixList u v = true → u = v.take u.length := by
  induction u with
  | nil => intro v _; rfl
  | cons a as ih =>
    intro v h
    cases v with
    | nil => rw [isPrefixList] at h; cases h
    | cons b bs =>
      by_cases hab : a = b
      · subst hab
        rw [isPrefixList, if_pos rfl] at h
        simpa [List.take] using ih h
      · rw [isPrefixList, if_neg hab] at h
        cases h

theorem isSubstr_of_prefix {p l : List Char} (h : isPrefixList p l = true) :
    isSubstr p l = true := by
  cases l with
  | nil => exact h
  | cons c rest => rw [isSubstr, h, Bool.true_or]

theorem isSubstr_append_of_prefix {p y : List Char} (x : List Char)
    (h : isPrefixList p y = true) : isSubstr p (x ++ y) = true := by
  induction x with
  | nil => simpa using isSubstr_of_prefix h
  | cons c x' ih => rw [List.cons_append, isSubstr, ih, Bool.or_true]

theorem isPrefixList_append_left {p : List Char} :
    ∀ {m : List Char} (w : List Char), isPrefixList p m = true →
      isPrefixList p (m ++ w) = true := by
  induction p with
  | nil => intro m w _; cases m <;> cases w <;> rfl
  | cons a as ih =>
    intro m w h
    cases m with
    | nil => rw [isPrefixList] at h; cases h
    | cons b bs =>
      by_cases hab : a = b
      · subst hab
        rw [isPrefixList, if_pos rfl] at h
        rw [List.cons_append, isPrefixList, if_pos rfl]
        exact ih w h
      · rw [isPrefixList, if_neg hab] at h
        cases h

/- The pattern "skills:" has no nontrivial self-overlap: no proper nonempty
suffix of it is also a prefix of it. -/
theorem skillsColon_no_overlap :
    ∀ k, k < 7 → 0 < k →
      ¬ (skillsColon.drop k = skillsColon.take (7 - k)) := by decide

/- A search for `skills:\s*([^\n]+)` skips any leading block that does not
contain "skills:" (no occurrence can straddle the boundary because the
pattern has no self-overlap). -/
theorem searchSkills_append {y : List Char} :
    ∀ {x : List Char}, isSubstr skillsColon x = false →
      isPrefixList skillsColon y = true → searchSkills (x ++ y) = searchSkills y := by
  intro x
  induction x with
  | nil => intro _ _; rfl
  | cons c x' ih =>
    intro hx hy
    have hx' : (isPrefixList skillsColon (c :: x') || isSubstr skillsColon x') = false := hx
    obtain ⟨hx1, hx2⟩ := Bool.or_eq_false_iff.mp hx'
    have hnp : isPrefixList skillsColon ((c :: x') ++ y) = false := by
      cases hb : isPrefixList skillsColon ((c :: x') ++ y) with
      | false => rfl
      | true =>
        exfalso
        rcases Nat.lt_or_ge (c :: x').length skillsColon.length with hlt | hge
        · obtain ⟨_, h2⟩ := isPrefixList_split y hb hlt
          have h3 : isPrefixList (skillsColon.drop (c :: x').length) skillsColon = true := by
            refine isPrefixList_trans_len h2 hy ?_
            simp [List.length_drop]
          have h4 := isPrefixList_eq_take h3
          rw [List.length_drop, show skillsColon.length = 7 from rfl] at h4
          exact skillsColon_no_overlap (c :: x').length (by simpa using hlt)
            (by simp) (by simpa using h4)
        · exact absurd (isPrefixList_length_le (c :: x') y hb hge) (by simp [hx1])
    rw [List.cons_append]
    rw [show searchSkills (c :: (x' ++ y)) =
        (if isPrefixList skillsColon (c :: (x' ++ y)) = true then
          match skillsGroupAt ((c :: (x' ++ y)).drop 7) with
          | some g => some g
          | none => searchSkills (x' ++ y)
        else searchSkills (x' ++ y)) from rfl]
    rw [List.cons_append] at hnp
    rw [hnp]
    simp only [Bool.false_eq_true, if_false]
    exact ih hx2 hy

/-- C8 counterexample: the prompt "What skills?\nSkills: Python, SQL"
satisfies the claim's premises (contains "skill", no graduation words, the
marker on one line), yet the fallback answer does not contain
"Python, SQL" — the regex search runs on the LOWER-CASED prompt, so the
answer reports "python, sql". -/
theorem skills_answer_case_cex :
    isSubstr (String.toList "skill")
      (pyLower (String.toList "What skills?" ++ '\n' :: String.toList "Skills: Python, SQL")) = true ∧
    isSubstr (String.toList "graduation")
      (pyLower (String.toList "What skills?" ++ '\n' :: String.toList "Skills: Python, SQL")) = false ∧
    isSubstr (String.toList "graduate")
      (pyLower (String.toList "What skills?" ++ '\n' :: String.toList "Skills: Python, SQL")) = false ∧
    isSubstr (String.toList "Skills: Python, SQL")
      (String.toList "What skills?" ++ '\n' :: String.toList "Skills: Python, SQL") = true ∧
    isSubstr (String.toList "Python, SQL")
      (fallback_answer (String.toList "What skills?" ++ '\n' :: String.toList "Skills: Python, SQL")) = false ∧
    fallback_answer (String.toList "What skills?" ++ '\n' :: String.toList "Skills: Python, SQL") =
      String.toList "The candidate has the following skills: python, sql" := by
  decide

/-- C8 (amended): for every prompt `a ++ "Skills: Python, SQL" ++ b` whose
marker line ends there (`b` empty or starting with a newline), whose
lower-cased form avoids "graduation"/"graduate", and in which no earlier
"skills:" occurs, the Fallback Answerer returns exactly
"The candidate has the following skills: python, sql" — it reports the
LOWER-CASED text after the first skills marker, not "Python, SQL". -/
theorem skills_fallback_lowercase (a b : List Char)
    (hb : b = [] ∨ ∃ b', b = '\n' :: b')
    (hg1 : isSubstr (String.toList "graduation")
      (pyLower (a ++ (String.toList "Skills: Python, SQL" ++ b))) = false)
    (hg2 : isSubstr (String.toList "graduate")
      (pyLower (a ++ (String.toList "Skills: Python, SQL" ++ b))) = false)
    (ha : isSubstr skillsColon (pyLower a) = false) :
    fallback_answer (a ++ (String.toList "Skills: Python, SQL" ++ b)) =
      String.toList "The candidate has the following skills: python, sql" := by
  have hmap : pyLower (a ++ (String.toList "Skills: Python, SQL" ++ b)) =
      pyLower a ++ (String.toList "skills: python, sql" ++ pyLower b) := by
    rw [pyLower, List.map_append, List.map_append]
    rfl
  have hpre : isPrefixList skillsColon (String.toList "skills: python, sql" ++ pyLower b) = true :=
    isPrefixList_append_left _ (by decide)
  have hskill : isSubstr (String.toList "skill")
      (pyLower (a ++ (String.toList "Skills: Python, SQL" ++ b))) = true := by
    rw [hmap]
    exact isSubstr_append_of_prefix _ (isPrefixList_append_left _ (by decide))
  have hskc : isSubstr skillsColon
      (pyLower (a ++ (String.toList "Skills: Python, SQL" ++ b))) = true := by
    rw [hmap]
    exact isSubstr_append_of_prefix _ hpre
  have hsearch : searchSkills (pyLower (a ++ (String.toList "Skills: Python, SQL" ++ b))) =
      some (String.toList "python, sql") := by
    rw [hmap, searchSkills_append ha hpre]
    rcases hb with rfl | ⟨b', rfl⟩
    · decide
    · rfl
  rw [fallback_answer]
  simp only [hg1, hg2, hskill, hskc, hsearch, Bool.or_self, Bool.false_eq_true, if_false,
    if_true]
  decide

/-- Witness for C8 at the prompt "What skills?\n" ++ "Skills: Python, SQL". -/
theorem skills_fallback_lowercase_witness :
    fallback_answer (String.toList "What skills?\n" ++ (String.toList "Skills: Python, SQL" ++ [])) =
      String.toList "The candidate has the following skills: python, sql" :=
  skills_fallback_lowercase (String.toList "What skills?\n") [] (Or.inl rfl)
    (by decide) (by decide) (by decide)

end KaStack
